import Mathlib

/-!
# Verification of the AFF4 RDFValue layer (`lib/rdfvalue.py`)

A shallow embedding of the value types of `lib/rdfvalue.py` and proofs about
them.  Python byte/text strings are modelled as `List Char` (written `Str`);
Python integers as `Int`; fallible operations return `Option` or
`Except PyError`.  External collaborators (the Python standard library's
`urlparse`, the `dateutil` date parser, the protobuf codec, and the string
helpers of `lib/utils.py`, which is not part of the sources) are modelled
separately; each of those definitions carries a doc comment saying what it
stands for.
-/

/-- Python strings (both `str` and `unicode`) are modelled as lists of
characters. -/
abbrev Str := List Char

/-- Conversion from a Lean string literal to the model type. -/
def str (s : String) : Str := s.toList

/-- Factor to convert from seconds to microseconds (`MICROSECONDS` in the
source). -/
def MICROSECONDS : Nat := 1000000

/-- The Python exceptions raised by the code, distinguished by raise site.
`keywordNotKnown` is `ValueError("Keyword arg %s not known.")`,
`cannotInitialize` is `ValueError("%s can not be initialized from %s")`,
`notCoercible` is `ValueError("Assignment value must be ..., but ... can not
be coerced.")`, `unparseableDate` is the `ValueError` escaping from the
date parser, and `unknownInitializer` is
`RuntimeError("Unknown initializer for RDFDateTime")`. -/
inductive PyError
  | keywordNotKnown (k : Str)
  | cannotInitialize
  | notCoercible
  | unparseableDate
  | unknownInitializer
deriving DecidableEq

/-! ## Character-level helpers -/

/-- Decimal digit test on the code point (models membership in
`'0123456789'`). -/
def isDigitB (c : Char) : Bool := decide (48 ≤ c.toNat ∧ c.toNat ≤ 57)

/-- Membership in `urlparse.scheme_chars`
(`abcdefghijklmnopqrstuvwxyzABCDEFGHIJKLMNOPQRSTUVWXYZ0123456789+-.`),
expressed on code points. -/
def schemeChars (c : Char) : Bool :=
  decide ((65 ≤ c.toNat ∧ c.toNat ≤ 90) ∨ (97 ≤ c.toNat ∧ c.toNat ≤ 122) ∨
    (48 ≤ c.toNat ∧ c.toNat ≤ 57) ∨ c.toNat = 43 ∨ c.toNat = 45 ∨ c.toNat = 46)

/-- Python 2 `str.lower()` on one byte: only ASCII `A`-`Z` are lowered. -/
def pyLower (c : Char) : Char :=
  if 65 ≤ c.toNat ∧ c.toNat ≤ 90 then Char.ofNat (c.toNat + 32) else c

theorem charToNat_ofNat (n : Nat) (h : n < 55296) : (Char.ofNat n).toNat = n := by
  have hv : n.isValidChar := Or.inl h
  simp [Char.ofNat, hv, Char.ofNatAux, Char.toNat, UInt32.toNat]

theorem pyLower_toNat (c : Char) :
    (pyLower c).toNat = if 65 ≤ c.toNat ∧ c.toNat ≤ 90 then c.toNat + 32 else c.toNat := by
  unfold pyLower
  split
  · next h => exact charToNat_ofNat _ (by omega)
  · rfl

theorem pyLower_schemeChars (c : Char) (h : schemeChars c = true) :
    schemeChars (pyLower c) = true := by
  simp only [schemeChars, decide_eq_true_iff] at h ⊢
  rw [pyLower_toNat]
  split <;> omega

theorem pyLower_idem (c : Char) : pyLower (pyLower c) = pyLower c := by
  have h := pyLower_toNat c
  show (if 65 ≤ (pyLower c).toNat ∧ (pyLower c).toNat ≤ 90
      then Char.ofNat ((pyLower c).toNat + 32) else pyLower c) = pyLower c
  rw [if_neg (by rw [h]; split <;> omega)]

theorem schemeChars_ne_colon (c : Char) (h : schemeChars c = true) : c ≠ ':' := by
  intro hc
  subst hc
  simp [schemeChars] at h

theorem schemeChars_not_digit_slash : isDigitB '/' = false := by decide

/-! ## Decimal integer printing and parsing

These model the Python builtins `str(<int>)` and `int(<str>)` (base 10),
which the source uses through `utils.SmartStr` and direct calls to `int`.
Only the exact decimal grammar is modelled (no surrounding whitespace). -/

/-- The character for a single decimal digit value. -/
def digitChar (d : Nat) : Char :=
  if d = 0 then '0' else if d = 1 then '1' else if d = 2 then '2'
  else if d = 3 then '3' else if d = 4 then '4' else if d = 5 then '5'
  else if d = 6 then '6' else if d = 7 then '7' else if d = 8 then '8' else '9'

/-- The numeric value of a digit character. -/
def charVal (c : Char) : Nat := c.toNat - 48

/-- Value of a digit string read left to right. -/
def digitsVal (l : Str) : Nat := l.foldl (fun a c => a * 10 + charVal c) 0

/-- Parse a non-empty all-digit string, else fail. -/
def parseDigits (l : Str) : Option Nat :=
  if l ≠ [] ∧ l.all isDigitB then some (digitsVal l) else none

/-- Decimal rendering of a positive natural, accumulator form. -/
def natToDigitsAux : Nat → Str → Str
  | 0, acc => acc
  | n + 1, acc => natToDigitsAux ((n + 1) / 10) (digitChar ((n + 1) % 10) :: acc)
termination_by n _ => n
decreasing_by simp_wf; omega

/-- Models `str(n)` for a natural number `n`. -/
def natToStr (n : Nat) : Str := if n = 0 then ['0'] else natToDigitsAux n []

/-- Models `str(n)` for a Python integer `n`. -/
def intToStr (n : Int) : Str :=
  if n < 0 then '-' :: natToStr n.natAbs else natToStr n.natAbs

/-- Models the Python builtin `int(<str>)` in base 10: an optional sign
followed by at least one digit; anything else raises `ValueError`,
modelled as `none`. -/
def pyInt (l : Str) : Option Int :=
  match l with
  | [] => none
  | c :: rest =>
    if c = '-' then (parseDigits rest).map fun n => -(n : Int)
    else if c = '+' then (parseDigits rest).map fun n => (n : Int)
    else (parseDigits (c :: rest)).map fun n => (n : Int)

theorem digitChar_val (d : Nat) (h : d < 10) : charVal (digitChar d) = d := by
  interval_cases d <;> decide

theorem digitChar_isDigit (d : Nat) (h : d < 10) : isDigitB (digitChar d) = true := by
  interval_cases d <;> decide

theorem natToDigitsAux_append (n : Nat) :
    ∀ acc, natToDigitsAux n acc = natToDigitsAux n [] ++ acc := by
  induction n using Nat.strong_induction_on with
  | _ n ih =>
    intro acc
    match n with
    | 0 => simp [natToDigitsAux]
    | m + 1 =>
      rw [natToDigitsAux, natToDigitsAux]
      rw [ih ((m + 1) / 10) (by omega) (digitChar ((m + 1) % 10) :: acc),
        ih ((m + 1) / 10) (by omega) [digitChar ((m + 1) % 10)]]
      simp

theorem natToDigitsAux_digits (n : Nat) :
    ∀ c ∈ natToDigitsAux n [], isDigitB c = true := by
  induction n using Nat.strong_induction_on with
  | _ n ih =>
    match n with
    | 0 => simp [natToDigitsAux]
    | m + 1 =>
      rw [natToDigitsAux, natToDigitsAux_append]
      intro c hc
      rcases List.mem_append.mp hc with h | h
      · exact ih ((m + 1) / 10) (by omega) c h
      · rcases List.mem_singleton.mp h with rfl
        exact digitChar_isDigit _ (Nat.mod_lt _ (by omega))

theorem natToDigitsAux_ne_nil (n : Nat) (h : n ≠ 0) : natToDigitsAux n [] ≠ [] := by
  match n with
  | m + 1 =>
    rw [natToDigitsAux, natToDigitsAux_append]
    simp

theorem digitsVal_append_digit (l : Str) (c : Char) :
    digitsVal (l ++ [c]) = digitsVal l * 10 + charVal c := by
  simp [digitsVal, List.foldl_append]

theorem natToDigitsAux_val (n : Nat) : digitsVal (natToDigitsAux n []) = n := by
  induction n using Nat.strong_induction_on with
  | _ n ih =>
    match n with
    | 0 => simp [natToDigitsAux, digitsVal]
    | m + 1 =>
      rw [natToDigitsAux, natToDigitsAux_append, digitsVal_append_digit,
        ih ((m + 1) / 10) (by omega), digitChar_val _ (Nat.mod_lt _ (by omega))]
      omega

theorem parseDigits_natToStr (n : Nat) : parseDigits (natToStr n) = some n := by
  unfold natToStr
  split
  · next h => subst h; decide
  · next h =>
    unfold parseDigits
    rw [if_pos]
    · rw [natToDigitsAux_val]
    · refine ⟨natToDigitsAux_ne_nil n h, ?_⟩
      exact List.all_eq_true.mpr (natToDigitsAux_digits n)

theorem natToStr_head_digit (n : Nat) :
    ∀ c ∈ (natToStr n).take 1, isDigitB c = true := by
  intro c hc
  have := List.take_subset 1 (natToStr n) hc
  unfold natToStr at this
  split at this
  · rcases List.mem_singleton.mp this with rfl; decide
  · next h => exact natToDigitsAux_digits n c this

theorem natToStr_ne_nil (n : Nat) : natToStr n ≠ [] := by
  unfold natToStr
  split
  · simp
  · next h => exact natToDigitsAux_ne_nil n h

theorem pyInt_intToStr (n : Int) : pyInt (intToStr n) = some n := by
  unfold intToStr
  split
  · next h =>
    show pyInt ('-' :: natToStr n.natAbs) = some n
    rw [pyInt, if_pos rfl, parseDigits_natToStr]
    show some (-((n.natAbs : Nat) : Int)) = some n
    congr 1
    omega
  · next h =>
    have hd : ∀ c ∈ (natToStr n.natAbs).take 1, isDigitB c = true := natToStr_head_digit _
    have hne : natToStr n.natAbs ≠ [] := natToStr_ne_nil _
    match hl : natToStr n.natAbs with
    | [] => exact absurd hl hne
    | c :: rest =>
      have hc : isDigitB c = true := by
        have := hd c; rw [hl] at this; exact this (by simp)
      have h1 : c ≠ '-' := by rintro rfl; simp [isDigitB] at hc
      have h2 : c ≠ '+' := by rintro rfl; simp [isDigitB] at hc
      rw [pyInt, if_neg h1, if_neg h2, ← hl, parseDigits_natToStr]
      show some (((n.natAbs : Nat) : Int)) = some n
      congr 1
      omega

/-! ## Splitting helpers

`splitChar` models Python's unbounded `s.split(sep)`, `pySplitBounded`
models `s.split(sep, maxsplit)`, and `breakOnChar` models
`s.split(sep, 1)` returning `none` when the separator is absent (the
pattern `if sep in s: a, b = s.split(sep, 1)` used by `urlparse`). -/

def splitChar (sep : Char) : Str → List Str
  | [] => [[]]
  | c :: rest =>
    if c = sep then [] :: splitChar sep rest
    else
      match splitChar sep rest with
      | [] => [[c]]
      | r :: rs => (c :: r) :: rs

def breakOnChar (sep : Char) : Str → Option (Str × Str)
  | [] => none
  | c :: rest =>
    if c = sep then some ([], rest)
    else (breakOnChar sep rest).map fun p => (c :: p.1, p.2)

def pySplitBounded (sep : Char) : Nat → Str → List Str
  | 0, l => [l]
  | _ + 1, [] => [[]]
  | n + 1, c :: rest =>
    if c = sep then [] :: pySplitBounded sep n rest
    else
      match pySplitBounded sep (n + 1) rest with
      | [] => [[c]]
      | r :: rs => (c :: r) :: rs

/-- Joining path components with `/` (the `sep.join(path_list)` step of the
path normalizer). -/
def joinComps : List Str → Str
  | [] => []
  | [c] => c
  | c :: d :: rest => c ++ '/' :: joinComps (d :: rest)

theorem splitChar_ne_nil (sep : Char) (l : Str) : splitChar sep l ≠ [] := by
  match l with
  | [] => simp [splitChar]
  | c :: rest =>
    rw [splitChar]
    split
    · simp
    · split <;> simp

theorem breakOnChar_not_mem (sep : Char) (l : Str) (h : sep ∉ l) :
    breakOnChar sep l = none := by
  induction l with
  | nil => rfl
  | cons c rest ih =>
    rw [breakOnChar, if_neg (by rintro rfl; exact h (by simp)),
      ih (fun hm => h (by simp [hm]))]
    rfl

theorem breakOnChar_append (sep : Char) (a b : Str) (h : sep ∉ a) :
    breakOnChar sep (a ++ sep :: b) = some (a, b) := by
  induction a with
  | nil => simp [breakOnChar]
  | cons c rest ih =>
    rw [List.cons_append, breakOnChar,
      if_neg (by rintro rfl; exact h (by simp)),
      ih (fun hm => h (by simp [hm]))]
    rfl

theorem breakOnChar_eq_some (sep : Char) (l a b : Str)
    (h : breakOnChar sep l = some (a, b)) : l = a ++ sep :: b ∧ sep ∉ a := by
  induction l generalizing a b with
  | nil => simp [breakOnChar] at h
  | cons c rest ih =>
    rw [breakOnChar] at h
    split at h
    · next hc =>
      subst hc
      injection h with h
      injection h with h1 h2
      subst h1; subst h2
      simp
    · next hc =>
      match hb : breakOnChar sep rest with
      | none => rw [hb] at h; simp at h
      | some (a0, b0) =>
        rw [hb] at h
        injection h with h
        injection h with h1 h2
        subst h2
        rcases ih a0 b0 hb with ⟨hr, hna⟩
        subst hr
        constructor
        · rw [← h1]; simp
        · rw [← h1]
          intro hm
          rcases List.mem_cons.mp hm with rfl | hm
          · exact hc rfl
          · exact hna hm

theorem breakOnChar_eq_none (sep : Char) (l : Str)
    (h : breakOnChar sep l = none) : sep ∉ l := by
  induction l with
  | nil => simp
  | cons c rest ih =>
    rw [breakOnChar] at h
    split at h
    · simp at h
    · next hc =>
      intro hm
      rcases List.mem_cons.mp hm with rfl | hm
      · exact hc rfl
      · match hb : breakOnChar sep rest with
        | none => exact ih hb hm
        | some p => rw [hb] at h; simp at h

/-! ## Path normalization

`utils.NormalizePath` and `utils.JoinPath` live in `lib/utils.py`, which is
not among the sources; they are modelled from the spec. -/

/-- One component of a normalized path is kept when it is neither empty nor
`.` nor `..`. -/
def compClean (x : Str) : Prop := x ≠ [] ∧ x ≠ ['.'] ∧ x ≠ ['.', '.'] ∧ '/' ∉ x

instance (x : Str) : Decidable (compClean x) := by unfold compClean; infer_instance

/-- The component pass of the path normalizer: drop empty and `.` segments,
resolve `..` against the accumulated prefix. -/
def normComps (acc : List Str) : List Str → List Str
  | [] => acc
  | c :: rest =>
    if c = [] ∨ c = ['.'] then normComps acc rest
    else if c = ['.', '.'] then normComps acc.dropLast rest
    else normComps (acc ++ [c]) rest

/-- Modelled from the spec: `utils.NormalizePath` (from `lib/utils.py`,
which is not under the sources) — "path is always normalized (no redundant
separators, resolved `.`/`..` segments)"; the result always carries a
single leading `/`. -/
def NormalizePath (p : Str) : Str :=
  '/' :: joinComps (normComps [] (splitChar '/' p))

/-- Modelled from the spec: `utils.JoinPath` (from `lib/utils.py`, not under
the sources) — joins the parts with `/` and normalizes the result. -/
def JoinPath (a b : Str) : Str := NormalizePath (a ++ '/' :: b)

theorem splitChar_not_mem (sep : Char) (l : Str) :
    ∀ x ∈ splitChar sep l, sep ∉ x := by
  induction l with
  | nil => simp [splitChar]
  | cons c rest ih =>
    rw [splitChar]
    split
    · intro x hx
      rcases List.mem_cons.mp hx with rfl | hx
      · simp
      · exact ih x hx
    · next hc =>
      match hs : splitChar sep rest with
      | [] => exact absurd hs (splitChar_ne_nil sep rest)
      | r :: rs =>
        intro x hx
        rcases List.mem_cons.mp hx with rfl | hx
        · intro hm
          rcases List.mem_cons.mp hm with rfl | hm
          · exact hc rfl
          · exact ih r (hs ▸ List.mem_cons_self r rs) hm
        · exact ih x (hs ▸ List.mem_cons_of_mem r hx)

theorem splitChar_chars (sep : Char) (l : Str) :
    ∀ x ∈ splitChar sep l, ∀ c ∈ x, c ∈ l := by
  induction l with
  | nil => simp [splitChar]
  | cons c rest ih =>
    rw [splitChar]
    split
    · intro x hx d hd
      rcases List.mem_cons.mp hx with rfl | hx
      · simp at hd
      · exact List.mem_cons_of_mem c (ih x hx d hd)
    · match hs : splitChar sep rest with
      | [] => exact absurd hs (splitChar_ne_nil sep rest)
      | r :: rs =>
        intro x hx d hd
        rcases List.mem_cons.mp hx with rfl | hx
        · rcases List.mem_cons.mp hd with rfl | hd
          · simp
          · exact List.mem_cons_of_mem c (ih r (hs ▸ List.mem_cons_self r rs) d hd)
        · exact List.mem_cons_of_mem c (ih x (hs ▸ List.mem_cons_of_mem r hx) d hd)

theorem normComps_mem (l : List Str) :
    ∀ acc, ∀ x ∈ normComps acc l, x ∈ acc ∨ x ∈ l := by
  induction l with
  | nil => intro acc x hx; rw [normComps] at hx; exact Or.inl hx
  | cons c rest ih =>
    intro acc x hx
    rw [normComps] at hx
    split at hx
    · rcases ih acc x hx with h | h
      · exact Or.inl h
      · exact Or.inr (List.mem_cons_of_mem c h)
    · split at hx
      · rcases ih acc.dropLast x hx with h | h
        · exact Or.inl (List.dropLast_subset _ h)
        · exact Or.inr (List.mem_cons_of_mem c h)
      · rcases ih (acc ++ [c]) x hx with h | h
        · rcases List.mem_append.mp h with h | h
          · exact Or.inl h
          · rw [List.mem_singleton.mp h]
            exact Or.inr (List.mem_cons_self c rest)
        · exact Or.inr (List.mem_cons_of_mem c h)

theorem normComps_clean (l : List Str) (hl : ∀ x ∈ l, '/' ∉ x) :
    ∀ acc, (∀ x ∈ acc, compClean x) → ∀ x ∈ normComps acc l, compClean x := by
  induction l with
  | nil => intro acc hacc x hx; rw [normComps] at hx; exact hacc x hx
  | cons c rest ih =>
    intro acc hacc x hx
    have hrest : ∀ x ∈ rest, '/' ∉ x := fun x hx => hl x (List.mem_cons_of_mem c hx)
    rw [normComps] at hx
    split at hx
    · exact ih hrest acc hacc x hx
    · split at hx
      · exact ih hrest acc.dropLast
          (fun x hx => hacc x (List.dropLast_subset _ hx)) x hx
      · next h1 h2 =>
        refine ih hrest (acc ++ [c]) ?_ x hx
        intro y hy
        rcases List.mem_append.mp hy with hy | hy
        · exact hacc y hy
        · rw [List.mem_singleton.mp hy]
          push_neg at h1
          exact ⟨h1.1, h1.2, h2, hl c (List.mem_cons_self c rest)⟩

theorem normComps_of_clean (l : List Str) (hl : ∀ x ∈ l, compClean x) :
    ∀ acc, normComps acc l = acc ++ l := by
  induction l with
  | nil => intro acc; rw [normComps]; simp
  | cons c rest ih =>
    intro acc
    have hc := hl c (List.mem_cons_self c rest)
    have hrest : ∀ x ∈ rest, compClean x := fun x hx => hl x (List.mem_cons_of_mem c hx)
    rw [normComps, if_neg (by push_neg; exact ⟨hc.1, hc.2.1⟩), if_neg hc.2.2.1,
      ih hrest (acc ++ [c])]
    simp

theorem joinComps_chars (cs : List Str) :
    ∀ c ∈ joinComps cs, c = '/' ∨ ∃ x ∈ cs, c ∈ x := by
  match cs with
  | [] => simp [joinComps]
  | [a] =>
    rw [joinComps]
    intro c hc
    exact Or.inr ⟨a, by simp, hc⟩
  | a :: b :: rest =>
    rw [joinComps]
    intro c hc
    rcases List.mem_append.mp hc with h | h
    · exact Or.inr ⟨a, by simp, h⟩
    · rcases List.mem_cons.mp h with rfl | h
      · exact Or.inl rfl
      · rcases joinComps_chars (b :: rest) c h with h | ⟨x, hx, hcx⟩
        · exact Or.inl h
        · exact Or.inr ⟨x, List.mem_cons_of_mem a hx, hcx⟩

theorem splitChar_no_sep (sep : Char) (l : Str) (h : sep ∉ l) :
    splitChar sep l = [l] := by
  induction l with
  | nil => rfl
  | cons c rest ih =>
    rw [splitChar, if_neg (by rintro rfl; exact h (by simp)),
      ih (fun hm => h (by simp [hm]))]

theorem splitChar_append_sep (sep : Char) (a t : Str) (h : sep ∉ a) :
    splitChar sep (a ++ sep :: t) = a :: splitChar sep t := by
  induction a with
  | nil => simp [splitChar]
  | cons c rest ih =>
    rw [List.cons_append, splitChar, if_neg (by rintro rfl; exact h (by simp)),
      ih (fun hm => h (by simp [hm]))]

theorem splitChar_joinComps (cs : List Str) (hcs : cs ≠ [])
    (h : ∀ x ∈ cs, '/' ∉ x) : splitChar '/' (joinComps cs) = cs := by
  match cs with
  | [a] =>
    rw [joinComps]
    exact splitChar_no_sep '/' a (h a (by simp))
  | a :: b :: rest =>
    rw [joinComps, splitChar_append_sep '/' a _ (h a (by simp)),
      splitChar_joinComps (b :: rest) (by simp)
        (fun x hx => h x (List.mem_cons_of_mem a hx))]

/-! ## The `urlparse` model

`RDFURN` delegates scheme/netloc/path/query/fragment handling to the Python
standard library's `urlparse` module.  The five-component `urlsplit`
behaviour of Python 2.7 is modelled below (the `params` component, split
from the path only when a `;` occurs in its last segment, is not modelled:
no claim involves `;`).  `SplitResult.geturl` models
`urlparse.urlunsplit`. -/

structure SplitResult where
  scheme : Str
  netloc : Str
  path : Str
  query : Str
  fragment : Str
deriving DecidableEq

/-- Models `urlparse._splitnetloc(url, 2)` with the two leading slashes
already dropped: the network location runs until the first `/`, `?` or
`#`. -/
def netlocSplit : Str → Str × Str
  | [] => ([], [])
  | c :: rest =>
    if c = '/' ∨ c = '?' ∨ c = '#' then ([], c :: rest)
    else
      let p := netlocSplit rest
      (c :: p.1, p.2)

/-- Models Python 2.7 `urlparse.urlsplit(url, scheme=defaultScheme)`:
a leading `name:` prefix of scheme characters is recognised as the scheme
(lower-cased) unless the remainder is a non-empty run of digits (the
"port number" special case); `//...` then delimits the network location;
the fragment is split at the first `#`; the query at the first `?`. -/
def urlsplit (url : Str) (defaultScheme : Str) : SplitResult :=
  let sr :=
    match breakOnChar ':' url with
    | some (before, after) =>
      if before ≠ [] ∧ before.all schemeChars ∧ (after = [] ∨ ¬ after.all isDigitB)
      then (before.map pyLower, after)
      else (defaultScheme, url)
    | none => (defaultScheme, url)
  let nr :=
    if sr.2.take 2 = ['/', '/'] then netlocSplit (sr.2.drop 2)
    else ([], sr.2)
  let rf := (breakOnChar '#' nr.2).getD (nr.2, [])
  let pq := (breakOnChar '?' rf.1).getD (rf.1, [])
  ⟨sr.1, nr.1, pq.1, pq.2, rf.2⟩

/-- Models `urlparse.urlunsplit` (what `geturl()` computes on the
five-component result). -/
def SplitResult.geturl (u : SplitResult) : Str :=
  let url := u.path
  let url :=
    if u.netloc ≠ [] ∨ url.take 2 = ['/', '/'] then
      '/' :: '/' :: (u.netloc ++ (if url ≠ [] ∧ url.take 1 ≠ ['/'] then '/' :: url else url))
    else url
  let url := if u.scheme ≠ [] then u.scheme ++ ':' :: url else url
  let url := if u.query ≠ [] then url ++ '?' :: u.query else url
  if u.fragment ≠ [] then url ++ '#' :: u.fragment else url

/-! ## RDFURN -/

/-- The state of an `RDFURN`: the parsed five-component locator `_urn` and
the cached `_string_urn = _urn.geturl()`. -/
structure RDFURN where
  urn : SplitResult
  string_urn : Str
deriving DecidableEq

/-- The `SplitResult` produced by `RDFURN.ParseFromString`: parse with
default scheme `aff4`, normalize the path component, and force the scheme
to `aff4` if it is empty. -/
def parseURN (s : Str) : SplitResult :=
  let u := urlsplit s (str "aff4")
  let u2 := { u with path := NormalizePath u.path }
  if u2.scheme = [] then { u2 with scheme := str "aff4" } else u2

/-- `RDFURN.ParseFromString`. -/
def RDFURN.ParseFromString (s : Str) : RDFURN :=
  ⟨parseURN s, (parseURN s).geturl⟩

/-- `RDFURN.SerializeToString` returns `str(self)`, i.e. the cached
`_string_urn`. -/
def RDFURN.SerializeToString (r : RDFURN) : Str := r.string_urn

/-- `RDFURN.__eq__`: compares `_string_urn` against the other operand
directly (with a raw string operand, this is plain string equality). -/
def RDFURN.eqStr (r : RDFURN) (other : Str) : Bool := r.string_urn == other

/-- `RDFURN.Path`. -/
def RDFURN.Path (r : RDFURN) : Str := r.urn.path

/-- `RDFURN.Copy` (the age argument is not modelled: ages play no role in
any claim): `RDFURN(str(self))`. -/
def RDFURN.Copy (r : RDFURN) : RDFURN := RDFURN.ParseFromString r.string_urn

/-- `RDFURN.Update(path=p)`: replace the path component and recompute the
cached string form (no renormalization happens here). -/
def RDFURN.UpdatePath (r : RDFURN) (p : Str) : RDFURN :=
  let u := { r.urn with path := p }
  ⟨u, u.geturl⟩

/-- The argument of `RDFURN.Add` is either another `RDFURN` or a raw
string. -/
inductive AddArg
  | urn (r : RDFURN)
  | text (s : Str)

/-- `RDFURN.Add`: another `RDFURN` is returned unchanged; text is parsed
with no default scheme, and, when its scheme differs from `aff4`, joined
as a path-relative suffix onto a copy of self; only text whose scheme is
exactly `aff4` replaces the current value. -/
def RDFURN.Add (self : RDFURN) (arg : AddArg) : RDFURN :=
  match arg with
  | .urn r => r
  | .text s =>
    let parsed := urlsplit s []
    if parsed.scheme ≠ str "aff4" then
      (self.Copy).UpdatePath (JoinPath self.urn.path s)
    else
      RDFURN.ParseFromString s

/-- Pad a list with empty strings up to the requested length (the
`while len(result) < count: result.append("")` loop of `RDFURN.Split`). -/
def padTo (l : List Str) (c : Nat) : List Str := l ++ List.replicate (c - l.length) []

/-- `RDFURN.Split(count)`: with a truthy `count`, a bounded split of the
path on `/` with empty segments dropped, padded with empty strings to
`count` elements; otherwise all non-empty path components. -/
def RDFURN.Split (r : RDFURN) (count : Option Nat) : List Str :=
  match count with
  | some c =>
    if c ≠ 0 then padTo (List.filter (fun x => !x.isEmpty) (pySplitBounded '/' c r.Path)) c
    else List.filter (fun x => !x.isEmpty) (splitChar '/' r.Path)
  | none => List.filter (fun x => !x.isEmpty) (splitChar '/' r.Path)

/-! ## Scalar value types -/

/-- The three storage type tags (`data_store_type` values `bytes`,
`string`, `integer`): what `SerializeToDataStore` hands to the store. -/
inductive DataStoreValue
  | bytes (b : Str)
  | string (s : Str)
  | integer (n : Int)
deriving DecidableEq

/-- `RDFBytes.ParseFromString`: stores the payload unchanged. -/
def RDFBytes.ParseFromString (s : Str) : Str := s

/-- `RDFBytes.SerializeToString`: returns the payload unchanged. -/
def RDFBytes.SerializeToString (v : Str) : Str := v

/-- `RDFBytes.__eq__`: compares the payload against the other operand
directly, with no type check. -/
def RDFBytes.eq (v : Str) (other : Str) : Bool := v == other

/-- `RDFBytes.SerializeToDataStore` (inherited default): the serialized
bytes. -/
def RDFBytes.SerializeToDataStore (v : Str) : DataStoreValue :=
  .bytes (RDFBytes.SerializeToString v)

/-- `RDFString.SerializeToString`: `utils.SmartStr` of the payload,
modelled as the identity on `Str`. -/
def RDFString.SerializeToString (v : Str) : Str := v

/-- `RDFString.ParseFromString` (inherited from `RDFBytes`). -/
def RDFString.ParseFromString (s : Str) : Str := s

/-- `RDFString.SerializeToDataStore`: the decoded text. -/
def RDFString.SerializeToDataStore (v : Str) : DataStoreValue := .string v

/-- `RDFString.__eq__` (inherited from `RDFBytes`). -/
def RDFString.eq (v : Str) (other : Str) : Bool := v == other

/-- `RDFSHAValue` serialization (inherited from `RDFBytes`). -/
def RDFSHAValue.SerializeToString (v : Str) : Str := v

/-- `RDFSHAValue` parsing (inherited from `RDFBytes`). -/
def RDFSHAValue.ParseFromString (s : Str) : Str := s

/-- `RDFInteger.ParseFromString`: an empty payload yields zero, otherwise
the payload is parsed as decimal text (`int(string)`). -/
def RDFInteger.ParseFromString (s : Str) : Option Int :=
  if s.isEmpty then some 0 else pyInt s

/-- `RDFInteger.SerializeToString` (inherited from `RDFString`):
`utils.SmartStr(self._value)`, i.e. `str(<int>)`. -/
def RDFInteger.SerializeToString (v : Int) : Str := intToStr v

/-- `RDFInteger.SerializeToDataStore`: `int(self._value)` — the native
integer, not its text form. -/
def RDFInteger.SerializeToDataStore (v : Int) : DataStoreValue := .integer v

/-- `RDFInteger.__eq__`: compares the integer payload against the other
operand directly, with no type check. -/
def RDFInteger.eq (v : Int) (other : Int) : Bool := v == other

/-! ## Date and time values -/

/-- A broken-down UTC date and time (the fields of a Python `datetime`
that the code uses). -/
structure DateTime6 where
  year : Nat
  month : Nat
  day : Nat
  hour : Nat
  minute : Nat
  second : Nat
deriving DecidableEq

/-- Gregorian leap-year rule. -/
def isLeap (y : Nat) : Bool := decide ((y % 4 = 0 ∧ y % 100 ≠ 0) ∨ y % 400 = 0)

def daysInYear (y : Nat) : Nat := if isLeap y then 366 else 365

/-- Days from 1970-01-01 to the start of year `y` (0 for years at or
before 1970). -/
def daysBeforeYear (y : Nat) : Nat := go (y - 1970)
  where go : Nat → Nat
    | 0 => 0
    | n + 1 => go n + daysInYear (1970 + n)

def daysInMonth (y m : Nat) : Nat :=
  if m = 2 then (if isLeap y then 29 else 28)
  else if m = 4 ∨ m = 6 ∨ m = 9 ∨ m = 11 then 30 else 31

/-- Days from the start of the year to the start of month `m`. -/
def daysBeforeMonth (y m : Nat) : Nat := go (m - 1)
  where go : Nat → Nat
    | 0 => 0
    | n + 1 => go n + daysInMonth y (n + 1)

/-- Models `calendar.timegm(t.utctimetuple())`: seconds since the epoch of
a broken-down UTC time. -/
def timegm (t : DateTime6) : Nat :=
  ((daysBeforeYear t.year + daysBeforeMonth t.year t.month + (t.day - 1)) * 24
    + t.hour) * 3600 + t.minute * 60 + t.second

/-- The `default` datetime handed to the date parser by
`RDFDatetime.ParseFromHumanReadable`: January 1st of the current year at
midnight UTC, or, with the end-of-year flag, December 31st of the current
year at 23:59 UTC. -/
def datetimeDefault (currentYear : Nat) (eoy : Bool) : DateTime6 :=
  if eoy then ⟨currentYear, 12, 31, 23, 59, 0⟩ else ⟨currentYear, 1, 1, 0, 0, 0⟩

/-- Modelled external collaborator: `dateutil.parser.parse(string,
default=default)` restricted to the four-digit-year grammar (a four-digit
number is read as the year; every other field keeps its value from
`default`).  Other date expressions accepted by `dateutil` are outside the
model; on them (and on unparseable text) the result is `none`. -/
def dateutil_parse (s : Str) (default : DateTime6) : Option DateTime6 :=
  if s.length = 4 ∧ s.all isDigitB then some { default with year := digitsVal s }
  else none

/-- `RDFDatetime.ParseFromHumanReadable(string, eoy)`: parse against the
eoy-selected default and convert to microseconds since the epoch
(`converter = MICROSECONDS`). -/
def RDFDatetime.ParseFromHumanReadable (currentYear : Nat) (s : Str) (eoy : Bool) :
    Option Nat :=
  (dateutil_parse s (datetimeDefault currentYear eoy)).map fun t => timegm t * MICROSECONDS

/-- The query predicates built by the datetime operator handlers, via the
external filter implementation: `PredicateLesserEqualFilter` ("at or
before") and `PredicateGreaterEqualFilter` ("at or after"). -/
inductive Predicate
  | lesserEqual (attr : Str) (value : Nat)
  | greaterEqual (attr : Str) (value : Nat)
deriving DecidableEq

/-- `RDFDatetime.LessThanEq`: at-or-before with the end-of-period
default. -/
def RDFDatetime.LessThanEq (currentYear : Nat) (attr : Str) (value : Str) :
    Option Predicate :=
  (RDFDatetime.ParseFromHumanReadable currentYear value true).map
    (Predicate.lesserEqual attr)

/-- `RDFDatetime.LessThan`: at-or-before with the ordinary default. -/
def RDFDatetime.LessThan (currentYear : Nat) (attr : Str) (value : Str) :
    Option Predicate :=
  (RDFDatetime.ParseFromHumanReadable currentYear value false).map
    (Predicate.lesserEqual attr)

/-- `RDFDatetime.GreaterThanEq`: at-or-after with the ordinary default. -/
def RDFDatetime.GreaterThanEq (currentYear : Nat) (attr : Str) (value : Str) :
    Option Predicate :=
  (RDFDatetime.ParseFromHumanReadable currentYear value false).map
    (Predicate.greaterEqual attr)

/-- `RDFDatetime.GreaterThan`: at-or-after with the end-of-period
default. -/
def RDFDatetime.GreaterThan (currentYear : Nat) (attr : Str) (value : Str) :
    Option Predicate :=
  (RDFDatetime.ParseFromHumanReadable currentYear value true).map
    (Predicate.greaterEqual attr)

/-- The `operators` table of `RDFDatetime`: operator token, arity, handler
name. -/
def RDFDatetime.operators : List (Str × Nat × Str) :=
  [(str "<", 1, str "LessThan"), (str ">", 1, str "GreaterThan"),
   (str "<=", 1, str "LessThanEq"), (str ">=", 1, str "GreaterThanEq")]

/-- Dispatch through the `operators` table, as the query engine does:
look the token up and invoke the named handler. -/
def RDFDatetime.applyOperator (currentYear : Nat) (op : Str) (attr : Str)
    (value : Str) : Option Predicate :=
  match RDFDatetime.operators.lookup op with
  | some (_, h) =>
    if h = str "LessThan" then RDFDatetime.LessThan currentYear attr value
    else if h = str "GreaterThan" then RDFDatetime.GreaterThan currentYear attr value
    else if h = str "LessThanEq" then RDFDatetime.LessThanEq currentYear attr value
    else if h = str "GreaterThanEq" then
      RDFDatetime.GreaterThanEq currentYear attr value
    else none
  | none => none

/-- The shapes an `RDFDatetime` initializer can take (`__init__`
dispatches on the runtime type). `listVal` stands for an object of a type
outside every recognised branch. -/
inductive DatetimeInit
  | datetime (v : Int)
  | intVal (n : Int)
  | strVal (s : Str)
  | noneInit
  | listVal (l : List Int)

/-- `RDFDatetime.__init__`: copy from another `RDFDatetime`; accept a
number as already-converted units; parse a string first as a plain
integer, then as a human-readable date; default to the current time
(`now`, in microseconds); any other shape raises `RuntimeError`. -/
def RDFDatetime.init (currentYear : Nat) (now : Int) :
    DatetimeInit → Except PyError Int
  | .datetime v => .ok v
  | .intVal n => .ok n
  | .strVal s =>
    match pyInt s with
    | some n => .ok n
    | none =>
      match RDFDatetime.ParseFromHumanReadable currentYear s false with
      | some n => .ok (Int.ofNat n)
      | none => .error .unparseableDate
  | .noneInit => .ok now
  | .listVal _ => .error .unknownInitializer

/-- `RDFDatetime` construction from its own serialized form (the string
branch of `__init__`, which `Copy` exercises). -/
def RDFDatetime.ofString (currentYear : Nat) (s : Str) : Option Int :=
  match pyInt s with
  | some n => some n
  | none => (RDFDatetime.ParseFromHumanReadable currentYear s false).map Int.ofNat

/-! ## RepeatedFieldHelper

The helper wraps the backing list of a repeated protobuf field together
with the bound converter.  Python's dynamic typing is modelled with a
single element universe `D`; the converter returns `none` where the Python
callable raises `TypeError`/`ValueError`. -/

structure RepeatedFieldHelper (D : Type) where
  proto_list : List D
  converter : D → Option D

/-- `RepeatedFieldHelper.Append`: coerce through the converter; a coercion
failure raises `ValueError` and leaves the backing list untouched;
otherwise the coerced value is added to the backing list (for an
`RDFProto` converter via `add().MergeFrom(...)`, otherwise via `append`:
either way exactly one element is added). -/
def RepeatedFieldHelper.Append {D : Type} (h : RepeatedFieldHelper D) (v : D) :
    Except PyError (RepeatedFieldHelper D) :=
  match h.converter v with
  | none => .error .notCoercible
  | some c => .ok { h with proto_list := h.proto_list ++ [c] }

/-- `RepeatedFieldHelper.__len__`. -/
def RepeatedFieldHelper.len {D : Type} (h : RepeatedFieldHelper D) : Nat :=
  h.proto_list.length

/-- The loop body of `RepeatedFieldHelper.__eq__` over the zipped pairs:
each of self's elements is read through `__getitem__` (hence coerced by
the converter) and compared against the other sequence's element; a
coercion failure on a stored element would raise (modelled `none`). -/
def eqPairs {D : Type} [DecidableEq D] (conv : D → Option D) :
    List (D × D) → Option Bool
  | [] => some true
  | (x, y) :: rest =>
    match conv x with
    | none => none
    | some cx => if cx = y then eqPairs conv rest else some false

/-- `RepeatedFieldHelper.__eq__(other)`: `zip(self, other)` truncates to
the shorter operand; the result is `True` as soon as every zipped pair
compares equal. -/
def RepeatedFieldHelper.eqSeq {D : Type} [DecidableEq D]
    (h : RepeatedFieldHelper D) (other : List D) : Option Bool :=
  eqPairs h.converter (h.proto_list.zip other)

/-! ## RDFProto

The wrapped protobuf message is modelled abstractly: `ProtoMsg` carries
the assignments made to it, and the external protobuf codec — whose
round-trip contract the code relies on — is modelled as the identity on
that state (`SerializeToString`/`ParseFromString` delegate wholly to the
external library). -/

/-- The state of the wrapped schema object (`self._data`): the scalar
field assignments applied to it.  Only integer-valued fields are modelled;
the claims under verification do not depend on the other scalar kinds. -/
structure ProtoMsg where
  assignments : List (Str × Int)
deriving DecidableEq

/-- `RDFProto.SerializeToString` delegates to the external protobuf
codec, modelled as the identity on the message state. -/
def RDFProto.SerializeToString (m : ProtoMsg) : ProtoMsg := m

/-- `RDFProto.ParseFromString` delegates to the external protobuf codec,
modelled as the identity on the message state. -/
def RDFProto.ParseFromString (m : ProtoMsg) : ProtoMsg := m

/-- The operand of `RDFProto.__eq__`: either an instance of the same
concrete class, or any other object (e.g. a raw byte string). -/
inductive ProtoOperand
  | inst (m : ProtoMsg)
  | rawStr (s : Str)

/-- `RDFProto.__eq__`: `isinstance(other, self.__class__)` and equal
serialized forms; a non-instance operand is never equal, whatever its
content. -/
def RDFProto.eq (m : ProtoMsg) : ProtoOperand → Bool
  | .inst m2 => decide (RDFProto.SerializeToString m = RDFProto.SerializeToString m2)
  | .rawStr _ => false

/-- `setattr` on a declared integer field, as exercised by the keyword
loop of `RDFProto.__init__` (the `int` coercion of the `CONVERTERS` table
is total on the modelled values). -/
def ProtoMsg.setField (m : ProtoMsg) (k : Str) (v : Int) : ProtoMsg :=
  ⟨(k, v) :: m.assignments⟩

/-- The keyword loop of `RDFProto.__init__`: each keyword must name an
attribute of the wrapped message (modelled: a declared schema field), else
`ValueError("Keyword arg %s not known.")` is raised. -/
def applyKwargs (schema : List Str) (m : ProtoMsg) :
    List (Str × Int) → Except PyError ProtoMsg
  | [] => .ok m
  | (k, v) :: rest =>
    if k ∈ schema then applyKwargs schema (m.setField k v) rest
    else .error (.keywordNotKnown k)

/-- The shapes an `RDFProto` initializer can take. `same` is another
instance of the identical concrete class (sharing its `_data`); `raw` is
a protobuf of the matching schema; `serialized` is a byte string (wire
form, modelled as the message state itself); `intVal`/`listVal` stand for
objects outside every recognised branch. -/
inductive ProtoInit
  | same (m : ProtoMsg)
  | raw (m : ProtoMsg)
  | serialized (m : ProtoMsg)
  | noneInit
  | intVal (n : Int)
  | listVal (l : List Int)

/-- `RDFProto.__init__`: dispatch on the initializer shape (same class /
raw protobuf / serialized bytes / `None`), raising
`ValueError("... can not be initialized from ...")` on every other shape,
then apply the keyword assignments. -/
def RDFProto.init (schema : List Str) (initializer : ProtoInit)
    (kwargs : List (Str × Int)) : Except PyError ProtoMsg :=
  match initializer with
  | .same m => applyKwargs schema m kwargs
  | .raw m => applyKwargs schema m kwargs
  | .serialized m => applyKwargs schema (RDFProto.ParseFromString m) kwargs
  | .noneInit => applyKwargs schema ⟨[]⟩ kwargs
  | .intVal _ => .error .cannotInitialize
  | .listVal _ => .error .cannotInitialize

/-! ## The URN round-trip invariant -/

/-- A character that does not delimit the network location. -/
def noSpec (c : Char) : Prop := ¬(c = '/' ∨ c = '?' ∨ c = '#')

/-- The invariant satisfied by every `SplitResult` that
`RDFURN.ParseFromString` produces: a non-empty, lower-case scheme of
scheme characters; a delimiter-free network location; a normalized path
(leading `/`, clean components, no `#` or `?`); a `#`-free query. -/
structure URNInv (u : SplitResult) : Prop where
  scheme_ne : u.scheme ≠ []
  scheme_ok : ∀ c ∈ u.scheme, schemeChars c = true
  scheme_low : u.scheme.map pyLower = u.scheme
  netloc_ok : ∀ c ∈ u.netloc, noSpec c
  path_form : ∃ cs, (∀ x ∈ cs, compClean x) ∧
    (∀ x ∈ cs, ∀ c ∈ x, c ≠ '#' ∧ c ≠ '?') ∧ u.path = '/' :: joinComps cs
  query_ok : '#' ∉ u.query

theorem netlocSplit_fst (l : Str) : ∀ c ∈ (netlocSplit l).1, noSpec c := by
  induction l with
  | nil => simp [netlocSplit]
  | cons c rest ih =>
    rw [netlocSplit]
    split
    · simp
    · next hc =>
      intro d hd
      rcases List.mem_cons.mp hd with rfl | hd
      · exact hc
      · exact ih d hd

theorem netlocSplit_append (a : Str) (ha : ∀ c ∈ a, noSpec c) (c : Char)
    (hc : ¬ noSpec c) (b : Str) : netlocSplit (a ++ c :: b) = (a, c :: b) := by
  induction a with
  | nil =>
    rw [List.nil_append, netlocSplit, if_pos (not_not.mp hc)]
  | cons d rest ih =>
    rw [List.cons_append, netlocSplit,
      if_neg (ha d (List.mem_cons_self d rest)),
      ih (fun x hx => ha x (List.mem_cons_of_mem d hx))]

theorem NormalizePath_form (p : Str) :
    ∃ cs, (∀ x ∈ cs, compClean x) ∧ (∀ x ∈ cs, ∀ c ∈ x, c = '/' ∨ c ∈ p) ∧
      NormalizePath p = '/' :: joinComps cs := by
  refine ⟨normComps [] (splitChar '/' p), ?_, ?_, rfl⟩
  · exact normComps_clean (splitChar '/' p) (splitChar_not_mem '/' p) []
      (by simp)
  · intro x hx c hc
    rcases normComps_mem (splitChar '/' p) [] x hx with h | h
    · simp at h
    · exact Or.inr (splitChar_chars '/' p x h c hc)

theorem NormalizePath_stable (cs : List Str) (h : ∀ x ∈ cs, compClean x) :
    NormalizePath ('/' :: joinComps cs) = '/' :: joinComps cs := by
  unfold NormalizePath
  match cs with
  | [] =>
    rw [joinComps]
    decide
  | a :: rest =>
    have hsp : splitChar '/' ('/' :: joinComps (a :: rest)) =
        [] :: (a :: rest) := by
      rw [splitChar, if_pos rfl,
        splitChar_joinComps (a :: rest) (by simp)
          (fun x hx => (h x hx).2.2.2)]
    rw [hsp, normComps, if_pos (Or.inl rfl), normComps_of_clean (a :: rest) h []]
    rw [List.nil_append]

theorem joinComps_cons_head (x : Str) (rest : List Str) (hx : x ≠ []) :
    ∃ c t, joinComps (x :: rest) = c :: t ∧ c ∈ x := by
  match x, hx with
  | c :: x2, _ =>
    match rest with
    | [] => exact ⟨c, x2, by rw [joinComps], by simp⟩
    | b :: r2 =>
      refine ⟨c, x2 ++ '/' :: joinComps (b :: r2), by rw [joinComps]; simp, by simp⟩

/-- The fragment of text following the path in a rebuilt URL never starts
with `/`: the path's first component, or the `?`/`#` delimiter, comes
first. -/
theorem urnPath_take2 (cs : List Str) (h : ∀ x ∈ cs, compClean x) (suffix : Str)
    (hs : '/' ∉ suffix.take 1) :
    ('/' :: (joinComps cs ++ suffix)).take 2 ≠ ['/', '/'] := by
  intro hc
  rw [List.take_succ_cons] at hc
  have h1 : (joinComps cs ++ suffix).take 1 = ['/'] := by
    injection hc with h1 h2
  match cs with
  | [] =>
    rw [joinComps, List.nil_append] at h1
    exact hs (h1 ▸ List.mem_singleton_self '/')
  | x :: rest =>
    obtain ⟨c, t, hj, hcx⟩ := joinComps_cons_head x rest (h x (by simp)).1
    rw [hj, List.cons_append, List.take_succ_cons, List.take_zero] at h1
    injection h1 with h1
    exact (h x (by simp)).2.2.2 (h1 ▸ hcx)

/-- Splitting `pre ++ (sep :: f | nothing)` at the first `sep` recovers
`(pre, f)` when `pre` is `sep`-free: the optional-delimiter pattern of
`urlsplit` for `#` and `?`. -/
theorem optSplit (sep : Char) (pre f : Str) (hp : sep ∉ pre) :
    (breakOnChar sep (pre ++ (if f ≠ [] then sep :: f else []))).getD
      (pre ++ (if f ≠ [] then sep :: f else []), []) = (pre, f) := by
  by_cases hf : f = []
  · subst hf
    rw [if_neg (by simp), List.append_nil, breakOnChar_not_mem sep pre hp]
    rfl
  · rw [if_pos hf, breakOnChar_append sep pre f hp]
    rfl

theorem urlsplit_build (scheme REST d : Str) (h1 : scheme ≠ [])
    (h2 : scheme.all schemeChars) (h3 : ':' ∉ scheme)
    (h4 : REST = [] ∨ ¬ REST.all isDigitB) :
    urlsplit (scheme ++ ':' :: REST) d =
      ⟨scheme.map pyLower,
       (if REST.take 2 = ['/', '/'] then netlocSplit (REST.drop 2) else ([], REST)).1,
       ((breakOnChar '?'
          ((breakOnChar '#'
            (if REST.take 2 = ['/', '/'] then netlocSplit (REST.drop 2)
             else ([], REST)).2).getD
            ((if REST.take 2 = ['/', '/'] then netlocSplit (REST.drop 2)
              else ([], REST)).2, [])).1).getD
          (((breakOnChar '#'
            (if REST.take 2 = ['/', '/'] then netlocSplit (REST.drop 2)
             else ([], REST)).2).getD
            ((if REST.take 2 = ['/', '/'] then netlocSplit (REST.drop 2)
              else ([], REST)).2, [])).1, [])).1,
       ((breakOnChar '?'
          ((breakOnChar '#'
            (if REST.take 2 = ['/', '/'] then netlocSplit (REST.drop 2)
             else ([], REST)).2).getD
            ((if REST.take 2 = ['/', '/'] then netlocSplit (REST.drop 2)
              else ([], REST)).2, [])).1).getD
          (((breakOnChar '#'
            (if REST.take 2 = ['/', '/'] then netlocSplit (REST.drop 2)
             else ([], REST)).2).getD
            ((if REST.take 2 = ['/', '/'] then netlocSplit (REST.drop 2)
              else ([], REST)).2, [])).1, [])).2,
       ((breakOnChar '#'
          (if REST.take 2 = ['/', '/'] then netlocSplit (REST.drop 2)
           else ([], REST)).2).getD
          ((if REST.take 2 = ['/', '/'] then netlocSplit (REST.drop 2)
            else ([], REST)).2, [])).2⟩ := by
  unfold urlsplit
  rw [breakOnChar_append ':' scheme REST h3]
  simp only [Option.getD_some]
  rw [if_pos ⟨h1, h2, h4⟩]

theorem geturl_reparse (u : SplitResult) (hu : URNInv u) :
    urlsplit u.geturl (str "aff4") = u := by
  rcases hu with ⟨hsne, hsok, hslow, hnet, ⟨cs, hclean, hnoqf, hpath⟩, hq⟩
  have hcolon : ':' ∉ u.scheme := fun hm =>
    schemeChars_ne_colon ':' (hsok ':' hm) rfl
  have hpf : '#' ∉ u.path := by
    rw [hpath]
    intro hm
    rcases List.mem_cons.mp hm with hm | hm
    · exact absurd hm (by decide)
    · rcases joinComps_chars cs '#' hm with hm | ⟨x, hx, hcx⟩
      · exact absurd hm (by decide)
      · exact (hnoqf x hx '#' hcx).1 rfl
  have hpq : '?' ∉ u.path := by
    rw [hpath]
    intro hm
    rcases List.mem_cons.mp hm with hm | hm
    · exact absurd hm (by decide)
    · rcases joinComps_chars cs '?' hm with hm | ⟨x, hx, hcx⟩
      · exact absurd hm (by decide)
      · exact (hnoqf x hx '?' hcx).2 rfl
  have hng : '#' ∉ u.path ++ (if u.query ≠ [] then '?' :: u.query else []) := by
    intro hm
    rcases List.mem_append.mp hm with hm | hm
    · exact hpf hm
    · split at hm
      · rcases List.mem_cons.mp hm with hm | hm
        · exact absurd hm (by decide)
        · exact hq hm
      · simp at hm
  have hsuf : '/' ∉ ((if u.query ≠ [] then '?' :: u.query else [])
      ++ (if u.fragment ≠ [] then '#' :: u.fragment else [])).take 1 := by
    by_cases hq2 : u.query = [] <;> by_cases hf2 : u.fragment = [] <;>
      simp [hq2, hf2, List.take_succ_cons]
  have hsall : u.scheme.all schemeChars = true := List.all_eq_true.mpr hsok
  by_cases hn : u.netloc = []
  · -- no network location
    have hp2 : u.path.take 2 ≠ ['/', '/'] := by
      rw [hpath]
      have h0 := urnPath_take2 cs hclean [] (by simp)
      simpa using h0
    have hg : u.geturl = u.scheme ++ ':' ::
        (u.path ++ (if u.query ≠ [] then '?' :: u.query else [])
          ++ (if u.fragment ≠ [] then '#' :: u.fragment else [])) := by
      simp only [SplitResult.geturl]
      rw [if_neg (show ¬(u.netloc ≠ [] ∨ u.path.take 2 = ['/', '/']) from by
        rw [not_or]; exact ⟨by simp [hn], hp2⟩), if_pos hsne]
      by_cases hq2 : u.query = [] <;> by_cases hf2 : u.fragment = [] <;>
        simp [hq2, hf2, List.append_assoc]
    have hrest : u.path ++ (if u.query ≠ [] then '?' :: u.query else [])
        ++ (if u.fragment ≠ [] then '#' :: u.fragment else [])
        = '/' :: (joinComps cs ++ ((if u.query ≠ [] then '?' :: u.query else [])
          ++ (if u.fragment ≠ [] then '#' :: u.fragment else []))) := by
      rw [hpath]
      simp [List.append_assoc]
    have hdig : ¬ (u.path ++ (if u.query ≠ [] then '?' :: u.query else [])
        ++ (if u.fragment ≠ [] then '#' :: u.fragment else [])).all isDigitB = true := by
      rw [hrest]
      intro hall
      rw [List.all_cons, show isDigitB '/' = false from by decide] at hall
      simp at hall
    rw [hg, urlsplit_build _ _ _ hsne hsall hcolon (Or.inr hdig)]
    have hift : (if (u.path ++ (if u.query ≠ [] then '?' :: u.query else [])
        ++ (if u.fragment ≠ [] then '#' :: u.fragment else [])).take 2 = ['/', '/']
        then netlocSplit ((u.path ++ (if u.query ≠ [] then '?' :: u.query else [])
          ++ (if u.fragment ≠ [] then '#' :: u.fragment else [])).drop 2)
        else (([] : Str), u.path ++ (if u.query ≠ [] then '?' :: u.query else [])
          ++ (if u.fragment ≠ [] then '#' :: u.fragment else []))) =
        (([] : Str), u.path ++ (if u.query ≠ [] then '?' :: u.query else [])
          ++ (if u.fragment ≠ [] then '#' :: u.fragment else [])) := by
      rw [if_neg]
      rw [hrest]
      exact urnPath_take2 cs hclean _ hsuf
    rw [hift, hslow]
    show SplitResult.mk u.scheme []
      ((breakOnChar '?' ((breakOnChar '#' _).getD _).1).getD _).1
      ((breakOnChar '?' ((breakOnChar '#' _).getD _).1).getD _).2
      ((breakOnChar '#' _).getD _).2 = u
    rw [optSplit '#' (u.path ++ (if u.query ≠ [] then '?' :: u.query else []))
      u.fragment hng]
    rw [optSplit '?' u.path u.query hpq]
    rw [← hn]
  · -- with a network location
    have hinner : ¬(u.path ≠ [] ∧ u.path.take 1 ≠ ['/']) := by
      rw [hpath]
      simp [List.take_succ_cons]
    have hg : u.geturl = u.scheme ++ ':' :: ('/' :: '/' ::
        (u.netloc ++ (u.path ++ (if u.query ≠ [] then '?' :: u.query else [])
          ++ (if u.fragment ≠ [] then '#' :: u.fragment else [])))) := by
      simp only [SplitResult.geturl]
      rw [if_pos (show u.netloc ≠ [] ∨ u.path.take 2 = ['/', '/'] from Or.inl hn),
        if_neg hinner, if_pos hsne]
      by_cases hq2 : u.query = [] <;> by_cases hf2 : u.fragment = [] <;>
        simp [hq2, hf2, List.append_assoc]
    have hdig : ¬ ('/' :: '/' ::
        (u.netloc ++ (u.path ++ (if u.query ≠ [] then '?' :: u.query else [])
          ++ (if u.fragment ≠ [] then '#' :: u.fragment else [])))).all isDigitB = true := by
      intro hall
      rw [List.all_cons, show isDigitB '/' = false from by decide] at hall
      simp at hall
    rw [hg, urlsplit_build _ _ _ hsne hsall hcolon (Or.inr hdig)]
    have htake : ('/' :: '/' ::
        (u.netloc ++ (u.path ++ (if u.query ≠ [] then '?' :: u.query else [])
          ++ (if u.fragment ≠ [] then '#' :: u.fragment else [])))).take 2
        = ['/', '/'] := rfl
    rw [if_pos htake]
    have hdrop : ('/' :: '/' ::
        (u.netloc ++ (u.path ++ (if u.query ≠ [] then '?' :: u.query else [])
          ++ (if u.fragment ≠ [] then '#' :: u.fragment else [])))).drop 2
        = u.netloc ++ (u.path ++ (if u.query ≠ [] then '?' :: u.query else [])
          ++ (if u.fragment ≠ [] then '#' :: u.fragment else [])) := rfl
    rw [hdrop]
    have hassoc : u.path ++ (if u.query ≠ [] then '?' :: u.query else [])
        ++ (if u.fragment ≠ [] then '#' :: u.fragment else [])
        = '/' :: (joinComps cs ++ ((if u.query ≠ [] then '?' :: u.query else [])
          ++ (if u.fragment ≠ [] then '#' :: u.fragment else []))) := by
      rw [hpath]
      simp [List.append_assoc]
    have hns : netlocSplit (u.netloc ++ (u.path
        ++ (if u.query ≠ [] then '?' :: u.query else [])
        ++ (if u.fragment ≠ [] then '#' :: u.fragment else [])))
        = (u.netloc, u.path ++ (if u.query ≠ [] then '?' :: u.query else [])
          ++ (if u.fragment ≠ [] then '#' :: u.fragment else [])) := by
      rw [hassoc]
      exact netlocSplit_append u.netloc hnet '/' (by simp [noSpec]) _
    rw [hns, hslow]
    show SplitResult.mk u.scheme u.netloc
      ((breakOnChar '?' ((breakOnChar '#' _).getD _).1).getD _).1
      ((breakOnChar '?' ((breakOnChar '#' _).getD _).1).getD _).2
      ((breakOnChar '#' _).getD _).2 = u
    rw [optSplit '#' (u.path ++ (if u.query ≠ [] then '?' :: u.query else []))
      u.fragment hng]
    rw [optSplit '?' u.path u.query hpq]

theorem urlsplit_scheme_cases (s d : Str) :
    (urlsplit s d).scheme = d ∨
    ∃ before, before ≠ [] ∧ before.all schemeChars = true ∧
      (urlsplit s d).scheme = before.map pyLower := by
  unfold urlsplit
  match hb : breakOnChar ':' s with
  | none => exact Or.inl rfl
  | some (before, after) =>
    by_cases hcond : before ≠ [] ∧ before.all schemeChars
        ∧ (after = [] ∨ ¬ after.all isDigitB)
    · right
      refine ⟨before, hcond.1, hcond.2.1, ?_⟩
      simp only [if_pos hcond]
    · left
      simp only [if_neg hcond]

/-- The fragment-then-query tail of `urlsplit`, factored for reasoning. -/
def rfSplit (rest2 : Str) : Str × Str := (breakOnChar '#' rest2).getD (rest2, [])

/-- The query split applied after the fragment split. -/
def pqSplit (rest2 : Str) : Str × Str :=
  (breakOnChar '?' (rfSplit rest2).1).getD ((rfSplit rest2).1, [])

theorem urlsplit_shape (sarg d : Str) :
    ∃ rest2, (urlsplit sarg d).path = (pqSplit rest2).1 ∧
      (urlsplit sarg d).query = (pqSplit rest2).2 ∧
      (urlsplit sarg d).fragment = (rfSplit rest2).2 :=
  ⟨_, rfl, rfl, rfl⟩

theorem urlsplit_netloc_cases (sarg d : Str) :
    (urlsplit sarg d).netloc = [] ∨
      ∃ r, (urlsplit sarg d).netloc = (netlocSplit r).1 := by
  simp only [urlsplit]
  split
  · exact Or.inr ⟨_, rfl⟩
  · exact Or.inl rfl

theorem pqSplit_facts (rest2 : Str) :
    '#' ∉ (pqSplit rest2).2 ∧ '#' ∉ (pqSplit rest2).1 ∧ '?' ∉ (pqSplit rest2).1 := by
  have hf1 : '#' ∉ (rfSplit rest2).1 := by
    unfold rfSplit
    match hb : breakOnChar '#' rest2 with
    | none => exact breakOnChar_eq_none '#' rest2 hb
    | some (a, b) =>
      show '#' ∉ a
      exact (breakOnChar_eq_some '#' rest2 a b hb).2
  unfold pqSplit
  match hb2 : breakOnChar '?' (rfSplit rest2).1 with
  | none =>
    refine ⟨by simp, hf1, breakOnChar_eq_none '?' _ hb2⟩
  | some (a2, b2) =>
    obtain ⟨heq, hna⟩ := breakOnChar_eq_some '?' _ a2 b2 hb2
    rw [heq] at hf1
    refine ⟨fun hm => ?_, fun hm => ?_, hna⟩
    · have hb : '#' ∈ b2 := hm
      exact hf1 (List.mem_append.mpr (Or.inr (List.mem_cons_of_mem _ hb)))
    · have ha : '#' ∈ a2 := hm
      exact hf1 (List.mem_append.mpr (Or.inl ha))

theorem aff4_ne_nil : str "aff4" ≠ [] := by decide

theorem aff4_schemeChars : ∀ c ∈ str "aff4", schemeChars c = true := by decide

theorem aff4_lower : (str "aff4").map pyLower = str "aff4" := by decide

theorem parseURN_inv (s : Str) : URNInv (parseURN s) := by
  have hbase : ∀ u2 : SplitResult,
      (u2.scheme ≠ [] ∧ (∀ c ∈ u2.scheme, schemeChars c = true) ∧
        u2.scheme.map pyLower = u2.scheme) →
      (∀ c ∈ u2.netloc, noSpec c) →
      (∃ cs, (∀ x ∈ cs, compClean x) ∧
        (∀ x ∈ cs, ∀ c ∈ x, c ≠ '#' ∧ c ≠ '?') ∧ u2.path = '/' :: joinComps cs) →
      '#' ∉ u2.query → URNInv u2 :=
    fun _ hs hn hp hq => ⟨hs.1, hs.2.1, hs.2.2, hn, hp, hq⟩
  have hnet : ∀ c ∈ (urlsplit s (str "aff4")).netloc, noSpec c := by
    rcases urlsplit_netloc_cases s (str "aff4") with h | ⟨r, h⟩
    · rw [h]; simp
    · rw [h]; exact netlocSplit_fst r
  obtain ⟨rest2, hpE, hqE, hfE⟩ := urlsplit_shape s (str "aff4")
  obtain ⟨hq1, hp1, hp2⟩ := pqSplit_facts rest2
  rw [← hpE] at hp1 hp2
  rw [← hqE] at hq1
  obtain ⟨cs, h1, h2, h3⟩ := NormalizePath_form (urlsplit s (str "aff4")).path
  have hpform : ∃ cs2, (∀ x ∈ cs2, compClean x) ∧
      (∀ x ∈ cs2, ∀ c ∈ x, c ≠ '#' ∧ c ≠ '?') ∧
      NormalizePath (urlsplit s (str "aff4")).path = '/' :: joinComps cs2 := by
    refine ⟨cs, h1, ?_, h3⟩
    intro x hx c hc
    rcases h2 x hx c hc with rfl | hm
    · exact ⟨by decide, by decide⟩
    · exact ⟨fun he => hp1 (he ▸ hm), fun he => hp2 (he ▸ hm)⟩
  simp only [parseURN]
  split
  · next hsch =>
    exact hbase _ ⟨aff4_ne_nil, aff4_schemeChars, aff4_lower⟩ hnet hpform hq1
  · next hsch =>
    refine hbase _ ⟨hsch, ?_, ?_⟩ hnet hpform hq1
    · intro c hc
      rcases urlsplit_scheme_cases s (str "aff4") with h | ⟨before, hb1, hb2, hb3⟩
      · rw [show ({ urlsplit s (str "aff4") with
            path := NormalizePath (urlsplit s (str "aff4")).path } : SplitResult).scheme
            = (urlsplit s (str "aff4")).scheme from rfl, h] at hc
        exact aff4_schemeChars c hc
      · rw [show ({ urlsplit s (str "aff4") with
            path := NormalizePath (urlsplit s (str "aff4")).path } : SplitResult).scheme
            = (urlsplit s (str "aff4")).scheme from rfl, hb3] at hc
        obtain ⟨b, hbm, rfl⟩ := List.mem_map.mp hc
        exact pyLower_schemeChars b (List.all_eq_true.mp hb2 b hbm)
    · show (urlsplit s (str "aff4")).scheme.map pyLower
        = (urlsplit s (str "aff4")).scheme
      rcases urlsplit_scheme_cases s (str "aff4") with h | ⟨before, hb1, hb2, hb3⟩
      · rw [h]; exact aff4_lower
      · rw [hb3, List.map_map]
        exact List.map_congr_left fun b _ => pyLower_idem b

theorem URNInv_path_stable (u : SplitResult) (hu : URNInv u) :
    NormalizePath u.path = u.path := by
  obtain ⟨cs, hclean, _, hpath⟩ := hu.path_form
  rw [hpath]
  exact NormalizePath_stable cs hclean

theorem parseURN_idem (s : Str) : parseURN ((parseURN s).geturl) = parseURN s := by
  have hinv := parseURN_inv s
  have h1 : urlsplit ((parseURN s).geturl) (str "aff4") = parseURN s :=
    geturl_reparse (parseURN s) hinv
  have h2 : NormalizePath (parseURN s).path = (parseURN s).path :=
    URNInv_path_stable _ hinv
  show (let u := urlsplit ((parseURN s).geturl) (str "aff4")
    let u2 : SplitResult := { u with path := NormalizePath u.path }
    if u2.scheme = [] then { u2 with scheme := str "aff4" } else u2) = parseURN s
  rw [h1]
  show (if ({ parseURN s with path := NormalizePath (parseURN s).path } :
      SplitResult).scheme = [] then _ else _) = parseURN s
  rw [h2]
  have heta : ({ parseURN s with path := (parseURN s).path } : SplitResult)
      = parseURN s := rfl
  rw [heta]
  rw [if_neg hinv.scheme_ne]

/-- Round trip for `RDFURN`: re-parsing the serialized form of any parsed
URN reproduces the same state. -/
theorem RDFURN_roundtrip (s : Str) :
    RDFURN.ParseFromString ((RDFURN.ParseFromString s).SerializeToString)
      = RDFURN.ParseFromString s := by
  show RDFURN.ParseFromString ((parseURN s).geturl) = RDFURN.ParseFromString s
  unfold RDFURN.ParseFromString
  rw [parseURN_idem]

/-! ## Supporting lemmas for the remaining claims -/

theorem intToStr_ne_nil (n : Int) : intToStr n ≠ [] := by
  unfold intToStr
  split
  · simp
  · exact natToStr_ne_nil _

theorem RDFInteger_roundtrip (n : Int) :
    RDFInteger.ParseFromString (RDFInteger.SerializeToString n) = some n := by
  unfold RDFInteger.ParseFromString RDFInteger.SerializeToString
  rw [if_neg, pyInt_intToStr]
  intro hemp
  exact intToStr_ne_nil n (List.isEmpty_iff.mp hemp)

theorem RDFDatetime_roundtrip (currentYear : Nat) (v : Int) :
    RDFDatetime.ofString currentYear (intToStr v) = some v := by
  unfold RDFDatetime.ofString
  rw [pyInt_intToStr]

theorem pySplitBounded_ne_nil (sep : Char) (n : Nat) (l : Str) :
    pySplitBounded sep n l ≠ [] := by
  match n, l with
  | 0, l => simp [pySplitBounded]
  | m + 1, [] => simp [pySplitBounded]
  | m + 1, c :: rest =>
    rw [pySplitBounded]
    split
    · simp
    · split <;> simp

theorem pySplitBounded_length (sep : Char) (n : Nat) (l : Str) :
    (pySplitBounded sep n l).length ≤ n + 1 := by
  induction l generalizing n with
  | nil =>
    match n with
    | 0 => simp [pySplitBounded]
    | m + 1 => simp [pySplitBounded]
  | cons c rest ih =>
    match n with
    | 0 => simp [pySplitBounded]
    | m + 1 =>
      rw [pySplitBounded]
      split
      · have := ih m
        simp only [List.length_cons]
        omega
      · match hs : pySplitBounded sep (m + 1) rest with
        | [] => exact absurd hs (pySplitBounded_ne_nil sep (m + 1) rest)
        | r :: rs =>
          have := ih (m + 1)
          rw [hs] at this
          simp only [List.length_cons] at this ⊢
          omega

theorem padTo_length (l : List Str) (c : Nat) (h : l.length ≤ c) :
    (padTo l c).length = c := by
  simp only [padTo, List.length_append, List.length_replicate]
  omega

theorem parseURN_path_cons (s : Str) : ∃ t, (parseURN s).path = '/' :: t := by
  obtain ⟨cs, _, _, hpath⟩ := (parseURN_inv s).path_form
  exact ⟨joinComps cs, hpath⟩

/-- With a positive count, `Split` always returns exactly `count`
components: the path's leading `/` yields an empty first segment that is
filtered away, so the bounded split leaves at most `count` non-empty
pieces, and padding fills up to exactly `count`. -/
theorem RDFURN_Split_length (s : Str) (c : Nat) (hc : 0 < c) :
    ((RDFURN.ParseFromString s).Split (some c)).length = c := by
  obtain ⟨t, hpath⟩ := parseURN_path_cons s
  have hpath2 : (RDFURN.ParseFromString s).Path = '/' :: t := hpath
  show (match some c with
    | some c =>
      if c ≠ 0 then
        padTo (List.filter (fun x => !List.isEmpty x)
          (pySplitBounded '/' c (RDFURN.ParseFromString s).Path)) c
      else List.filter (fun x => !List.isEmpty x)
        (splitChar '/' (RDFURN.ParseFromString s).Path)
    | none => List.filter (fun x => !List.isEmpty x)
        (splitChar '/' (RDFURN.ParseFromString s).Path)).length = c
  simp only []
  rw [if_pos (by omega : c ≠ 0), hpath2]
  match c, hc with
  | m + 1, _ =>
    rw [pySplitBounded, if_pos rfl]
    apply padTo_length
    calc (List.filter (fun x => !x.isEmpty) ([] :: pySplitBounded '/' m t)).length
        = (List.filter (fun x => !x.isEmpty) (pySplitBounded '/' m t)).length := by
          rw [List.filter_cons]
          simp
      _ ≤ (pySplitBounded '/' m t).length := List.length_filter_le _ _
      _ ≤ m + 1 := pySplitBounded_length '/' m t

theorem eqPairs_all_eq {D : Type} [DecidableEq D] (conv : D → Option D)
    (l : List (D × D)) (h : ∀ p ∈ l, conv p.1 = some p.2) :
    eqPairs conv l = some true := by
  induction l with
  | nil => rfl
  | cons p rest ih =>
    match p with
    | (x, y) =>
      rw [eqPairs, h (x, y) (by simp)]
      simp only [if_pos rfl]
      exact ih fun q hq => h q (List.mem_cons_of_mem _ hq)

theorem applyKwargs_bad (schema : List Str) (m : ProtoMsg)
    (kwargs : List (Str × Int)) (h : ∃ kv ∈ kwargs, kv.1 ∉ schema) :
    ∃ k, applyKwargs schema m kwargs = .error (.keywordNotKnown k) ∧ k ∉ schema := by
  induction kwargs generalizing m with
  | nil => simp at h
  | cons kv rest ih =>
    match kv with
    | (k, v) =>
      rw [applyKwargs]
      by_cases hk : k ∈ schema
      · rw [if_pos hk]
        apply ih
        obtain ⟨kv2, hm, hns⟩ := h
        rcases List.mem_cons.mp hm with rfl | hm
        · exact absurd hk hns
        · exact ⟨kv2, hm, hns⟩
      · rw [if_neg hk]
        exact ⟨k, rfl, hk⟩

theorem applyKwargs_ok (schema : List Str) (m : ProtoMsg)
    (kwargs : List (Str × Int)) (h : ∀ kv ∈ kwargs, kv.1 ∈ schema) :
    ∃ m2, applyKwargs schema m kwargs = .ok m2 := by
  induction kwargs generalizing m with
  | nil => exact ⟨m, rfl⟩
  | cons kv rest ih =>
    match kv with
    | (k, v) =>
      rw [applyKwargs, if_pos (h (k, v) (by simp))]
      exact ih _ fun q hq => h q (List.mem_cons_of_mem _ hq)

theorem parseHR_default (cy : Nat) (s : Str) (h4 : s.length = 4 ∧ s.all isDigitB) :
    RDFDatetime.ParseFromHumanReadable cy s false
      = some (timegm ⟨digitsVal s, 1, 1, 0, 0, 0⟩ * MICROSECONDS) ∧
    RDFDatetime.ParseFromHumanReadable cy s true
      = some (timegm ⟨digitsVal s, 12, 31, 23, 59, 0⟩ * MICROSECONDS) := by
  constructor
  · show (dateutil_parse s (datetimeDefault cy false)).map
      (fun t => timegm t * MICROSECONDS) = _
    rw [show datetimeDefault cy false = ⟨cy, 1, 1, 0, 0, 0⟩ from rfl]
    unfold dateutil_parse
    rw [if_pos h4]
    rfl
  · show (dateutil_parse s (datetimeDefault cy true)).map
      (fun t => timegm t * MICROSECONDS) = _
    rw [show datetimeDefault cy true = ⟨cy, 12, 31, 23, 59, 0⟩ from rfl]
    unfold dateutil_parse
    rw [if_pos h4]
    rfl

theorem parseHR_2020 (cy : Nat) (eoy : Bool) :
    RDFDatetime.ParseFromHumanReadable cy (str "2020") eoy
      = some (if eoy then 1609459140000000 else 1577836800000000) := by
  match eoy with
  | false =>
    rw [(parseHR_default cy (str "2020") (by decide)).1]
    rfl
  | true =>
    rw [(parseHR_default cy (str "2020") (by decide)).2]
    rfl

/-! ## The claims -/

/-- Claim C1: for every concrete value type and every value of that type,
parsing the serialized form (`ParseFromString(SerializeToString(v))`)
produces a value equal to `v` — for byte strings, text strings, SHA
values, integers, datetimes (whose string form is their integer payload),
structured messages (through the external codec) and URNs — including the
boundary values: empty byte string, zero integer, epoch timestamp, and
root URN `aff4:/`. -/
theorem C1_roundtrip :
    (∀ b : Str, RDFBytes.ParseFromString (RDFBytes.SerializeToString b) = b) ∧
    (∀ v : Str, RDFString.ParseFromString (RDFString.SerializeToString v) = v) ∧
    (∀ v : Str, RDFSHAValue.ParseFromString (RDFSHAValue.SerializeToString v) = v) ∧
    (∀ n : Int, RDFInteger.ParseFromString (RDFInteger.SerializeToString n) = some n) ∧
    (∀ cy : Nat, ∀ v : Int,
      RDFDatetime.ofString cy (RDFInteger.SerializeToString v) = some v) ∧
    (∀ m : ProtoMsg, RDFProto.ParseFromString (RDFProto.SerializeToString m) = m) ∧
    (∀ s : Str, RDFURN.ParseFromString ((RDFURN.ParseFromString s).SerializeToString)
      = RDFURN.ParseFromString s) ∧
    RDFBytes.ParseFromString (RDFBytes.SerializeToString (str "")) = str "" ∧
    RDFInteger.ParseFromString (RDFInteger.SerializeToString 0) = some 0 ∧
    (∀ cy : Nat, RDFDatetime.ofString cy (RDFInteger.SerializeToString 0) = some 0) ∧
    (RDFURN.ParseFromString
        ((RDFURN.ParseFromString (str "aff4:/")).SerializeToString)
      = RDFURN.ParseFromString (str "aff4:/")
      ∧ (RDFURN.ParseFromString (str "aff4:/")).string_urn = str "aff4:/") :=
  ⟨fun _ => rfl, fun _ => rfl, fun _ => rfl, RDFInteger_roundtrip,
   fun cy v => RDFDatetime_roundtrip cy v, fun _ => rfl, RDFURN_roundtrip,
   rfl, RDFInteger_roundtrip 0, fun cy => RDFDatetime_roundtrip cy 0,
   ⟨RDFURN_roundtrip (str "aff4:/"), by decide⟩⟩

/-- Claim C2, counterexample: the text `"c"` has a scheme (the empty one)
differing from the sentinel default `"aff4"`, yet
`ResourceName("aff4:/a/b").Add("c")` does not treat it as a brand-new
absolute locator (`RDFURN("c")`, which would be `"aff4:/c"`): it joins it
as a path-relative suffix, giving `"aff4:/a/b/c"`.  The claim's general
rule has the two branches swapped. -/
theorem C2_counterexample :
    (urlsplit (str "c") []).scheme ≠ str "aff4" ∧
    ((RDFURN.ParseFromString (str "aff4:/a/b")).Add (.text (str "c"))).string_urn
      = str "aff4:/a/b/c" ∧
    ((RDFURN.ParseFromString (str "aff4:/a/b")).Add (.text (str "c"))).string_urn
      ≠ (RDFURN.ParseFromString (str "c")).string_urn := by decide

/-- Claim C2, amended: `Add` of another ResourceName returns it unchanged;
`Add` of text whose scheme EQUALS the sentinel `"aff4"` is treated as a
brand-new absolute locator; text whose scheme differs (including the empty
scheme of bare relative text) is joined as a path-relative suffix onto a
copy of self.  `ResourceName("aff4:/a/b").Add("c")` serializes to
`"aff4:/a/b/c"` and `.Add("aff4:/x")` gives `"aff4:/x"` verbatim. -/
theorem C2_add :
    (∀ (self : RDFURN) (r : RDFURN), self.Add (.urn r) = r) ∧
    (∀ (self : RDFURN) (s : Str), (urlsplit s []).scheme = str "aff4" →
      self.Add (.text s) = RDFURN.ParseFromString s) ∧
    (∀ (self : RDFURN) (s : Str), (urlsplit s []).scheme ≠ str "aff4" →
      self.Add (.text s) = (self.Copy).UpdatePath (JoinPath self.urn.path s)) ∧
    ((RDFURN.ParseFromString (str "aff4:/a/b")).Add
      (.text (str "c"))).string_urn = str "aff4:/a/b/c" ∧
    ((RDFURN.ParseFromString (str "aff4:/a/b")).Add
      (.text (str "aff4:/x"))).string_urn = str "aff4:/x" := by
  refine ⟨fun _ _ => rfl, fun self s h => ?_, fun self s h => ?_, by decide, by decide⟩
  · show (if (urlsplit s []).scheme ≠ str "aff4"
      then (self.Copy).UpdatePath (JoinPath self.urn.path s)
      else RDFURN.ParseFromString s) = RDFURN.ParseFromString s
    rw [if_neg (by simp [h])]
  · show (if (urlsplit s []).scheme ≠ str "aff4"
      then (self.Copy).UpdatePath (JoinPath self.urn.path s)
      else RDFURN.ParseFromString s)
      = (self.Copy).UpdatePath (JoinPath self.urn.path s)
    rw [if_pos h]

/-- Witness for C2: the amended branch characterizations evaluated at
`"aff4:/x"` (absolute) and `"c"` (relative) against `"aff4:/a/b"`. -/
theorem C2_add_witness :
    ((urlsplit (str "aff4:/x") []).scheme = str "aff4" ∧
      (RDFURN.ParseFromString (str "aff4:/a/b")).Add (.text (str "aff4:/x"))
        = RDFURN.ParseFromString (str "aff4:/x")) ∧
    ((urlsplit (str "c") []).scheme ≠ str "aff4" ∧
      (RDFURN.ParseFromString (str "aff4:/a/b")).Add (.text (str "c"))
        = ((RDFURN.ParseFromString (str "aff4:/a/b")).Copy).UpdatePath
            (JoinPath (RDFURN.ParseFromString (str "aff4:/a/b")).urn.path
              (str "c"))) :=
  ⟨⟨by decide, C2_add.2.1 _ _ (by decide)⟩,
   ⟨by decide, C2_add.2.2.1 _ _ (by decide)⟩⟩

/-- Claim C3: `RepeatedFieldHelper.__eq__` compares element-wise over
`zip(self, other)`, which truncates to the shorter operand, the view's
elements being read through the bound converter; whenever every zipped
pair compares equal the two sequences compare equal regardless of the
length difference, and in particular every view compares equal to the
empty sequence. -/
theorem C3_eq_prefix :
    (∀ (D : Type) (inst : DecidableEq D) (h : RepeatedFieldHelper D)
      (other : List D),
      (∀ p ∈ h.proto_list.zip other, h.converter p.1 = some p.2) →
      @RepeatedFieldHelper.eqSeq D inst h other = some true) ∧
    (∀ (D : Type) (inst : DecidableEq D) (h : RepeatedFieldHelper D),
      @RepeatedFieldHelper.eqSeq D inst h ([] : List D) = some true) := by
  constructor
  · intro D inst h other hp
    exact eqPairs_all_eq h.converter _ hp
  · intro D inst h
    unfold RepeatedFieldHelper.eqSeq
    rw [List.zip_nil_right]
    rfl

/-- Witness for C3: a three-element view over naturals (identity-style
converter) compares equal to the two-element sequence `[1, 2]`, although
the lengths differ. -/
theorem C3_eq_prefix_witness :
    (∀ p ∈ (([1, 2, 3] : List Nat).zip [1, 2]), some p.1 = some p.2) ∧
    (RepeatedFieldHelper.mk ([1, 2, 3] : List Nat) some).eqSeq [1, 2]
      = some true :=
  ⟨by decide,
   C3_eq_prefix.1 Nat inferInstance ⟨[1, 2, 3], some⟩ [1, 2] (by decide)⟩

/-- Claim C4: for timestamps, `<` and `<=` both build at-or-before
(`PredicateLesserEqualFilter`) predicates — `<` parsing its literal with
the non-end-of-period default and `<=` with the end-of-period default —
while `>` and `>=` build at-or-after (`PredicateGreaterEqualFilter`)
predicates symmetrically, `>` with the end-of-period default and `>=`
without, so that `> 2020` means after the last instant of 2020
(2020-12-31 23:59 UTC). -/
theorem C4_operators :
    (∀ cy (a v : Str), RDFDatetime.applyOperator cy (str "<") a v
      = (RDFDatetime.ParseFromHumanReadable cy v false).map
          (Predicate.lesserEqual a)) ∧
    (∀ cy (a v : Str), RDFDatetime.applyOperator cy (str "<=") a v
      = (RDFDatetime.ParseFromHumanReadable cy v true).map
          (Predicate.lesserEqual a)) ∧
    (∀ cy (a v : Str), RDFDatetime.applyOperator cy (str ">") a v
      = (RDFDatetime.ParseFromHumanReadable cy v true).map
          (Predicate.greaterEqual a)) ∧
    (∀ cy (a v : Str), RDFDatetime.applyOperator cy (str ">=") a v
      = (RDFDatetime.ParseFromHumanReadable cy v false).map
          (Predicate.greaterEqual a)) ∧
    (∀ cy (a : Str), RDFDatetime.applyOperator cy (str ">") a (str "2020")
      = some (Predicate.greaterEqual a 1609459140000000)) := by
  refine ⟨fun _ _ _ => rfl, fun _ _ _ => rfl, fun _ _ _ => rfl,
    fun _ _ _ => rfl, fun cy a => ?_⟩
  show (RDFDatetime.ParseFromHumanReadable cy (str "2020") true).map
    (Predicate.greaterEqual a) = _
  rw [parseHR_2020 cy true]
  rfl

/-- Claim C5: every date component missing from a human-readable string
defaults to January 1st of the current year at midnight UTC with the
end-of-period flag off, and to December 31st 23:59 UTC with it on; in
particular `"2020"` resolves to 2020-01-01 00:00:00 UTC
(1577836800000000 µs) with the flag off and to 2020-12-31 23:59:00 UTC
(1609459140000000 µs) with it on. -/
theorem C5_defaults :
    (∀ cy, RDFDatetime.ParseFromHumanReadable cy (str "2020") false
      = some 1577836800000000) ∧
    (∀ cy, RDFDatetime.ParseFromHumanReadable cy (str "2020") true
      = some 1609459140000000) ∧
    (∀ cy eoy, datetimeDefault cy eoy
      = if eoy then ⟨cy, 12, 31, 23, 59, 0⟩ else ⟨cy, 1, 1, 0, 0, 0⟩) ∧
    (∀ cy (s : Str), s.length = 4 ∧ s.all isDigitB →
      RDFDatetime.ParseFromHumanReadable cy s false
        = some (timegm ⟨digitsVal s, 1, 1, 0, 0, 0⟩ * MICROSECONDS) ∧
      RDFDatetime.ParseFromHumanReadable cy s true
        = some (timegm ⟨digitsVal s, 12, 31, 23, 59, 0⟩ * MICROSECONDS)) := by
  refine ⟨fun cy => ?_, fun cy => ?_, fun _ _ => rfl, parseHR_default⟩
  · rw [parseHR_2020 cy false]
    rfl
  · rw [parseHR_2020 cy true]
    rfl

/-- Witness for C5: the general default rule evaluated at the year string
`"1999"` with current year 2025. -/
theorem C5_defaults_witness :
    ((str "1999").length = 4 ∧ (str "1999").all isDigitB) ∧
    (RDFDatetime.ParseFromHumanReadable 2025 (str "1999") false
      = some (timegm ⟨digitsVal (str "1999"), 1, 1, 0, 0, 0⟩ * MICROSECONDS) ∧
    RDFDatetime.ParseFromHumanReadable 2025 (str "1999") true
      = some (timegm ⟨digitsVal (str "1999"), 12, 31, 23, 59, 0⟩ * MICROSECONDS)) :=
  ⟨by decide, C5_defaults.2.2.2 2025 (str "1999") (by decide)⟩

/-- Claim C6: `RepeatedFieldHelper.Append` fails with the coercion
`ValueError` whenever the bound converter cannot coerce the item
(returning no new state, so the backing field is unchanged), and succeeds
whenever it can, with the backing list growing by exactly one element. -/
theorem C6_append :
    (∀ (D : Type) (h : RepeatedFieldHelper D) (v : D),
      h.converter v = none → h.Append v = .error .notCoercible) ∧
    (∀ (D : Type) (h : RepeatedFieldHelper D) (v c : D),
      h.converter v = some c →
      h.Append v = .ok { h with proto_list := h.proto_list ++ [c] } ∧
      ∀ h2, h.Append v = .ok h2 → h2.len = h.len + 1) := by
  constructor
  · intro D h v hc
    unfold RepeatedFieldHelper.Append
    rw [hc]
  · intro D h v c hc
    constructor
    · unfold RepeatedFieldHelper.Append
      rw [hc]
    · intro h2 hok
      unfold RepeatedFieldHelper.Append at hok
      rw [hc] at hok
      injection hok with hok
      rw [← hok]
      simp [RepeatedFieldHelper.len]

/-- Witness for C6: a converter admitting only naturals below 10 rejects
`50` and accepts `3`, growing the backing list from 2 to 3 elements. -/
theorem C6_append_witness :
    ((RepeatedFieldHelper.mk ([1, 2] : List Nat)
        (fun n => if n < 10 then some n else none)).converter 50 = none ∧
      (RepeatedFieldHelper.mk ([1, 2] : List Nat)
        (fun n => if n < 10 then some n else none)).Append 50
        = .error .notCoercible) ∧
    ((RepeatedFieldHelper.mk ([1, 2] : List Nat)
        (fun n => if n < 10 then some n else none)).converter 3 = some 3 ∧
      (RepeatedFieldHelper.mk ([1, 2] : List Nat)
        (fun n => if n < 10 then some n else none)).Append 3
        = .ok ⟨[1, 2, 3], fun n => if n < 10 then some n else none⟩) :=
  ⟨⟨by decide, C6_append.1 Nat ⟨[1, 2], fun n => if n < 10 then some n else none⟩
      50 (by decide)⟩,
   ⟨by decide, (C6_append.2 Nat ⟨[1, 2], fun n => if n < 10 then some n else none⟩
      3 3 (by decide)).1⟩⟩

/-- Claim C7: `RDFURN.Split(count)` with a positive count returns exactly
`count` path components — a bounded split on `/` keeping extra segments
joined in the final element, dropping empty segments, padded with empty
strings to `count` — in particular `Split(2)` on `"aff4:/a"` gives
`["a", ""]` and on `"aff4:/a/b/c"` gives `["a", "b/c"]`; without a count
it returns all non-empty path components. -/
theorem C7_split :
    (∀ (s : Str) (c : Nat), 0 < c →
      ((RDFURN.ParseFromString s).Split (some c)).length = c) ∧
    (∀ (s : Str) (c : Nat), c ≠ 0 →
      (RDFURN.ParseFromString s).Split (some c)
        = padTo (List.filter (fun x => !x.isEmpty)
            (pySplitBounded '/' c (RDFURN.ParseFromString s).Path)) c) ∧
    (∀ s : Str, (RDFURN.ParseFromString s).Split none
      = List.filter (fun x => !x.isEmpty)
          (splitChar '/' (RDFURN.ParseFromString s).Path)) ∧
    (RDFURN.ParseFromString (str "aff4:/a")).Split (some 2)
      = [str "a", str ""] ∧
    (RDFURN.ParseFromString (str "aff4:/a/b/c")).Split (some 2)
      = [str "a", str "b/c"] := by
  refine ⟨RDFURN_Split_length, fun s c hc => ?_, fun s => rfl, by decide, by decide⟩
  show (if c ≠ 0 then padTo (List.filter (fun x => !x.isEmpty)
      (pySplitBounded '/' c (RDFURN.ParseFromString s).Path)) c
    else List.filter (fun x => !x.isEmpty)
      (splitChar '/' (RDFURN.ParseFromString s).Path)) = _
  rw [if_pos hc]

/-- Witness for C7: the length rule and bounded-split shape evaluated at
`"aff4:/a"` with count 2. -/
theorem C7_split_witness :
    (0 < 2 ∧ ((RDFURN.ParseFromString (str "aff4:/a")).Split (some 2)).length = 2) ∧
    ((2 : Nat) ≠ 0 ∧ (RDFURN.ParseFromString (str "aff4:/a")).Split (some 2)
      = padTo (List.filter (fun x => !x.isEmpty)
          (pySplitBounded '/' 2 (RDFURN.ParseFromString (str "aff4:/a")).Path)) 2) :=
  ⟨⟨by decide, C7_split.1 (str "aff4:/a") 2 (by decide)⟩,
   ⟨by decide, C7_split.2.1 (str "aff4:/a") 2 (by decide)⟩⟩

/-- Claim C8: integer parsing maps the empty payload to zero and a
non-empty payload to its decimal value (`int(string)`), and in
particular re-parses every serialized integer; the data-store
representation is the native integer, not its text form. -/
theorem C8_integer :
    RDFInteger.ParseFromString (str "") = some 0 ∧
    (∀ s : Str, s ≠ [] → RDFInteger.ParseFromString s = pyInt s) ∧
    (∀ n : Int, RDFInteger.ParseFromString (intToStr n) = some n) ∧
    (∀ v : Int, RDFInteger.SerializeToDataStore v = .integer v) ∧
    (∀ v : Int, RDFInteger.SerializeToDataStore v
      ≠ .string (RDFInteger.SerializeToString v)) := by
  refine ⟨by decide, fun s hs => ?_, fun n => RDFInteger_roundtrip n,
    fun v => rfl, fun v => by simp [RDFInteger.SerializeToDataStore]⟩
  unfold RDFInteger.ParseFromString
  rw [if_neg (fun he => hs (List.isEmpty_iff.mp he))]

/-- Witness for C8: the non-empty decimal rule at the payload `"7"`. -/
theorem C8_integer_witness :
    (str "7" ≠ [] ∧ RDFInteger.ParseFromString (str "7") = pyInt (str "7")) ∧
    RDFInteger.ParseFromString (str "7") = some 7 :=
  ⟨⟨by decide, C8_integer.2.1 (str "7") (by decide)⟩, by decide⟩

/-- Claim C9: constructing a structured-message value with a keyword that
names no declared field fails with the keyword `ValueError` (whatever
supported shape the initializer had), and an initializer of an
unsupported shape fails with the initializer `ValueError` (for
`RDFDatetime`, with `RuntimeError`). -/
theorem C9_errors :
    (∀ (schema : List Str) (m : ProtoMsg) (kwargs : List (Str × Int)),
      (∃ kv ∈ kwargs, kv.1 ∉ schema) →
      (∃ k, RDFProto.init schema (.same m) kwargs
        = .error (.keywordNotKnown k) ∧ k ∉ schema) ∧
      (∃ k, RDFProto.init schema (.raw m) kwargs
        = .error (.keywordNotKnown k) ∧ k ∉ schema) ∧
      (∃ k, RDFProto.init schema (.serialized m) kwargs
        = .error (.keywordNotKnown k) ∧ k ∉ schema) ∧
      (∃ k, RDFProto.init schema .noneInit kwargs
        = .error (.keywordNotKnown k) ∧ k ∉ schema)) ∧
    (∀ (schema : List Str) (kwargs : List (Str × Int)) (n : Int),
      RDFProto.init schema (.intVal n) kwargs = .error .cannotInitialize) ∧
    (∀ (schema : List Str) (kwargs : List (Str × Int)) (l : List Int),
      RDFProto.init schema (.listVal l) kwargs = .error .cannotInitialize) ∧
    (∀ (cy : Nat) (now : Int) (l : List Int),
      RDFDatetime.init cy now (.listVal l) = .error .unknownInitializer) := by
  refine ⟨fun schema m kwargs hbad => ?_, fun _ _ _ => rfl, fun _ _ _ => rfl,
    fun _ _ _ => rfl⟩
  exact ⟨applyKwargs_bad schema m kwargs hbad,
    applyKwargs_bad schema m kwargs hbad,
    applyKwargs_bad schema (RDFProto.ParseFromString m) kwargs hbad,
    applyKwargs_bad schema ⟨[]⟩ kwargs hbad⟩

/-- Witness for C9: a schema declaring only `foo`, constructed with the
unknown keyword `bar`. -/
theorem C9_errors_witness :
    (∃ kv ∈ [(str "bar", (1 : Int))], kv.1 ∉ [str "foo"]) ∧
    (∃ k, RDFProto.init [str "foo"] (.noneInit) [(str "bar", 1)]
      = .error (.keywordNotKnown k) ∧ k ∉ [str "foo"]) :=
  ⟨⟨(str "bar", 1), by simp, by decide⟩,
   (C9_errors.1 [str "foo"] ⟨[]⟩ [(str "bar", 1)]
     ⟨(str "bar", 1), by simp, by decide⟩).2.2.2⟩

/-- Claim C10: equality on byte-string, text, integer, and URN values
compares the underlying primitive payload directly against the other
operand with no type check — each value equals the raw primitive of
identical content, an `RDFURN` equals the plain string of its normalized
form — while structured-message equality additionally requires the same
concrete class: a non-instance operand is never equal. -/
theorem C10_eq :
    (∀ v : Str, RDFBytes.eq v v = true) ∧
    (∀ v : Str, RDFString.eq v v = true) ∧
    (∀ n : Int, RDFInteger.eq n n = true) ∧
    (∀ s : Str, (RDFURN.ParseFromString s).eqStr
      (RDFURN.ParseFromString s).string_urn = true) ∧
    (∀ m : ProtoMsg, RDFProto.eq m (.inst m) = true) ∧
    (∀ (m : ProtoMsg) (b : Str), RDFProto.eq m (.rawStr b) = false) := by
  refine ⟨fun v => ?_, fun v => ?_, fun n => ?_, fun s => ?_, fun m => ?_,
    fun m b => rfl⟩
  · simp [RDFBytes.eq]
  · simp [RDFString.eq]
  · simp [RDFInteger.eq]
  · simp [RDFURN.eqStr]
  · simp [RDFProto.eq]
